import Mathlib

/-!
Verification of the dustforce-matchmaking backend (src/backend/server.py,
src/backend/dustkid.py) against its natural-language specification.

The Python source is shallowly embedded: dictionaries become insertion-ordered
association lists (`dictSet` preserves the position of an existing key, exactly
like a CPython `dict`), Python `set`s become `Finset Nat`, epoch timestamps and
`timedelta`s become integers counting seconds, and `sorted(..., key=...)`
becomes a stable insertion sort (`sortTS`).
-/

namespace DFM

/-- The fields of a dustkid `Event` (dustkid_schema.py) that the lobby engine
reads.  The remaining fields are carried opaquely by the Python code and never
inspected, so they are omitted from the embedding. -/
structure Event where
  user : Nat
  level : String
  time : Int
  score_completion : Int
  score_finesse : Int
  timestamp : Int
  deriving Repr, DecidableEq

/-- `Score` dataclass (server.py). -/
structure Score where
  completion : Int
  finesse : Int
  time : Int
  timestamp : Int
  deriving Repr, DecidableEq

/-- `Score.from_dustkid_event` (server.py). -/
def Score.from_dustkid_event (e : Event) : Score :=
  ⟨e.score_completion, e.score_finesse, e.time, e.timestamp⟩

/-- `Score.ss_key` (server.py): `(completion + finesse, -time, -timestamp)`. -/
def Score.ss_key (s : Score) : Int × Int × Int :=
  (s.completion + s.finesse, -s.time, -s.timestamp)

/-- Lexicographic strict order on the `ss_key` triples, i.e. Python tuple
comparison; `keyLt a b` means `a` is strictly worse than `b`. -/
def keyLt (a b : Int × Int × Int) : Bool :=
  a.1 < b.1 || (a.1 == b.1 && (a.2.1 < b.2.1 || (a.2.1 == b.2.1 && a.2.2 < b.2.2)))

/-- The two scoring predicates that `Lobby.on_start_round` can install as
`self.condition` (`mode == "any"` and `mode == "ss"`). -/
inductive Cond where
  | condAny
  | condSS
  deriving Repr, DecidableEq

/-- Evaluation of the installed predicate closures from `on_start_round`:
`lambda _: True` and `lambda event: event.score_completion == 5 and
event.score_finesse == 5`. -/
def condAccepts : Cond → Event → Bool
  | .condAny, _ => true
  | .condSS, e => e.score_completion == 5 && e.score_finesse == 5

/-- Lookup in an insertion-ordered association list (CPython `dict.get`). -/
def dictGet {α : Type} (d : List (Nat × α)) (k : Nat) : Option α :=
  match d with
  | [] => none
  | (k', v) :: rest => if k' = k then some v else dictGet rest k

/-- `d[k] = v` on a CPython `dict`: an existing key keeps its position in the
iteration order, a new key is appended at the end. -/
def dictSet {α : Type} (d : List (Nat × α)) (k : Nat) (v : α) : List (Nat × α) :=
  match d with
  | [] => [(k, v)]
  | (k', v') :: rest => if k' = k then (k', v) :: rest else (k', v') :: dictSet rest k v

/-- `Level` dataclass (server.py); only `filename` is stored. -/
structure LevelR where
  filename : String
  deriving Repr, DecidableEq

/-- `Level.id` (server.py): `filename.rsplit("-", 1)`; stock maps (no `-`)
have no id, otherwise `int()` of the text after the last `-` (embedded as
`String.toInt?`), with `None` on a parse failure. -/
def LevelR.id (lv : LevelR) : Option Int :=
  let parts := lv.filename.splitOn "-"
  match parts.getLast? with
  | none => none
  | some lastPart => if parts.length < 2 then none else lastPart.toInt?

/-- The mutable `Lobby` state touched by the claims (server.py `Lobby.__init__`).
`users`, `scores` are insertion-ordered dicts; `eliminated` is a `set`;
`round_end` / `round_time` are epoch seconds / a duration in seconds;
`start_round` is the `asyncio.Event` flag; `condition` the installed predicate. -/
structure LobbyState where
  password : String
  condition : Option Cond
  round_time : Int
  round_end : Option Int
  users : List (Nat × String)
  allow_joining : Bool
  level : Option LevelR
  scores : List (Nat × Score)
  start_round : Bool
  eliminated : Finset Nat
  deriving DecidableEq

/-- Keys of the `users` dict as a set (`set(self.users)`). -/
def usersKeys (st : LobbyState) : Finset Nat :=
  (st.users.map Prod.fst).toFinset

/-- Keys of the `scores` dict as a set (`set(self.scores)`). -/
def scoresKeys (st : LobbyState) : Finset Nat :=
  (st.scores.map Prod.fst).toFinset

/-- `Lobby.remaining` (server.py): `set(self.users) - self.eliminated`. -/
def remaining (st : LobbyState) : Finset Nat :=
  usersKeys st \ st.eliminated

/-- Result of `Lobby.on_dustkid_event`: the state after the call, whether the
event was dropped by the guard chain (one of the early `return`s before the
score comparison), and whether a state broadcast (`send_state`) was issued. -/
structure EventResult where
  state : LobbyState
  dropped : Bool
  broadcast : Bool
  deriving DecidableEq

/-- `Lobby.on_dustkid_event` (server.py).  The event time comparison uses the
event's epoch timestamp directly, as the Python code compares
`datetime.fromtimestamp(event.timestamp, utc)` against `round_end` (a UTC
datetime) and `round_time` (a timedelta). -/
def on_dustkid_event (st : LobbyState) (e : Event) : EventResult :=
  match st.level with
  | none => ⟨st, true, false⟩
  | some lv =>
    if e.level ≠ lv.filename then ⟨st, true, false⟩
    else match st.condition with
      | none => ⟨st, true, false⟩
      | some c =>
        if ¬ condAccepts c e then ⟨st, true, false⟩
        else match st.round_end with
          | none => ⟨st, true, false⟩
          | some re =>
            if e.timestamp < re - st.round_time ∨ re < e.timestamp then ⟨st, true, false⟩
            else
              let new_score := Score.from_dustkid_event e
              match dictGet st.scores e.user with
              | none => ⟨{ st with scores := dictSet st.scores e.user new_score }, false, true⟩
              | some old_score =>
                if old_score.timestamp > new_score.timestamp then
                  ⟨{ st with scores := dictSet st.scores e.user new_score }, false, true⟩
                else ⟨st, false, false⟩

/-- `Lobby.on_login` (server.py): only records the user while
`allow_joining` is true.  The Python code stores a `User` dataclass keyed by
its id; the embedding keys the name by the id. -/
def on_login (st : LobbyState) (uid : Nat) (name : String) : LobbyState :=
  if st.allow_joining then { st with users := dictSet st.users uid name } else st

/-- `Lobby.on_logout` (server.py): the body is `pass`. -/
def on_logout (st : LobbyState) : LobbyState :=
  st

/-- The `Client` dataclass (server.py); the socket and identity play no role
in the claims, so only the `user` field is embedded. -/
structure ClientR where
  user : Option (Nat × String)
  deriving DecidableEq

/-- `Client.logout` (server.py): clear `self.user`, then notify the lobby via
`on_logout`. -/
def client_logout (c : ClientR) (st : LobbyState) : ClientR × LobbyState :=
  ({ c with user := none }, on_logout st)

/-- Stable insertion of an entry into a timestamp-sorted list: the new entry
goes in front of the first entry whose timestamp is not smaller. -/
def insertTS (x : Nat × Score) : List (Nat × Score) → List (Nat × Score)
  | [] => [x]
  | y :: ys => if y.2.timestamp < x.2.timestamp then y :: insertTS x ys else x :: y :: ys

/-- Embedding of `sorted(..., key=lambda user_score: user_score[1].timestamp)`
(server.py `Lobby._run_game`): a stable sort by timestamp.  An element is
inserted in front of later-listed elements with an equal timestamp, so
original relative order is preserved among ties, as with Python's stable
`sorted`. -/
def sortTS : List (Nat × Score) → List (Nat × Score)
  | [] => []
  | x :: xs => insertTS x (sortTS xs)

/-- The list comprehension in `Lobby._run_game`:
`[(user_id, score) for user_id, score in self.scores.items() if user_id in self.remaining]`. -/
def roundScorers (st : LobbyState) : List (Nat × Score) :=
  st.scores.filter (fun p => p.1 ∈ remaining st)

/-- The `out` set computed at the end of a round in `Lobby._run_game`
(server.py lines 438-455).  The `none` branch of the `getLast?` match is
unreachable from `_run_game` (the loop guard gives `1 < |remaining|`, and the
branch is only taken when every remaining user has a score); on that branch
the Python code would raise `IndexError` on `sorted_scores[-1]`. -/
def roundOut (st : LobbyState) : Finset Nat :=
  let rem := remaining st
  let out0 := rem \ scoresKeys st
  let out1 :=
    if out0 = ∅ then
      match (sortTS (roundScorers st)).getLast? with
      | some p => {p.1}
      | none => (∅ : Finset Nat)
    else out0
  if out1 = rem then ∅ else out1

/-- The end-of-round state update in `Lobby._run_game`:
`self.eliminated |= out` followed by `self.scores = {}`. -/
def roundEnd (st : LobbyState) : LobbyState :=
  { st with eliminated := st.eliminated ∪ roundOut st, scores := [] }

/-- The entry of a list with the maximal timestamp, with ties resolved in
favour of the entry occurring latest in the list. -/
def lastMaxTS : List (Nat × Score) → Option (Nat × Score)
  | [] => none
  | x :: xs =>
    match lastMaxTS xs with
    | none => some x
    | some y => if y.2.timestamp < x.2.timestamp then some x else some y

/-- The elimination rule with the amended tie-break: eliminate the remaining
users without a score; if there are none, eliminate the scorer whose stored
timestamp is latest, ties broken in favour of the user latest in the `scores`
dict's insertion order (the order in which users first posted an accepted
score; in-place updates keep a user's position); never eliminate all of
`remaining`. -/
def amendedOut (st : LobbyState) : Finset Nat :=
  let rem := remaining st
  let out0 := rem \ scoresKeys st
  let out1 :=
    if out0 = ∅ then
      match lastMaxTS (roundScorers st) with
      | some p => {p.1}
      | none => (∅ : Finset Nat)
    else out0
  if out1 = rem then ∅ else out1

/-- Folding a list of accepted dustkid events through `on_dustkid_event`. -/
def runEvents (st : LobbyState) : List Event → LobbyState
  | [] => st
  | e :: es => runEvents (on_dustkid_event st e).state es

/-- The sequence of score writes performed while processing a list of events:
one `(user, score)` entry, in observation order, for every event that
`on_dustkid_event` records (i.e. that triggers a broadcast). -/
def acceptedWrites (st : LobbyState) : List Event → List (Nat × Score)
  | [] => []
  | e :: es =>
    let r := on_dustkid_event st e
    (if r.broadcast then [(e.user, Score.from_dustkid_event e)] else [])
      ++ acceptedWrites r.state es

/-- Largest stored timestamp of a list of score entries. -/
def maxTSVal (l : List (Nat × Score)) : Int :=
  (l.map (fun p => p.2.timestamp)).foldr max 0

/-- Modelled from the spec: the tie-break rule exactly as the spec states it.
Among the remaining scorers whose stored timestamp is maximal, the eliminated
one is the user whose accepted scoring event was observed most recently
(latest in the stream of accepted writes). -/
def claimTieBreak (st0 : LobbyState) (es : List Event) : Option Nat :=
  let st := runEvents st0 es
  let scorers := roundScorers st
  let tied := (scorers.filter (fun p => p.2.timestamp = maxTSVal scorers)).map Prod.fst
  ((acceptedWrites st0 es).filter (fun w => w.1 ∈ tied)).getLast?.map Prod.fst

/-- The `new_level` computation of `Lobby.on_start_round` (server.py):
reuse `self.level` when its id equals `level_id`, otherwise take the result
of the external catalog lookup `await Level.from_id(level_id)`, which is
passed in as `resolved`. -/
def resolveNewLevel (st : LobbyState) (level_id : Int) (resolved : Option LevelR) :
    Option LevelR :=
  match st.level with
  | some lv => if lv.id = some level_id then some lv else resolved
  | none => resolved

/-- `Lobby.on_start_round` (server.py).  `resolved` is the result of the
external catalog lookup `await Level.from_id(level_id)`; the branch that
reuses `self.level` never consults it. -/
def on_start_round (st : LobbyState) (password : String) (level_id : Int) (mode : String)
    (resolved : Option LevelR) : LobbyState :=
  if password ≠ st.password then st
  else
    match resolveNewLevel st level_id resolved with
    | none => st
    | some nl =>
      if st.start_round then st
      else
        { st with
          condition := if mode = "any" then some .condAny
                       else if mode = "ss" then some .condSS
                       else st.condition,
          level := some nl,
          start_round := true }

/-- The ASCII record separator `0x1E` used to frame the dustkid stream
(dustkid.py). -/
def RS : Nat := 30

/-- `buffer.split(b"\x1e")` as used in `*events, buffer = buffer.split(b"\x1e")`
(dustkid.py): the completed records (all parts but the last) paired with the
trailing unterminated part. -/
def splitRS : List Nat → List (List Nat) × List Nat
  | [] => ([], [])
  | b :: bs =>
    let r := splitRS bs
    if b = RS then ([] :: r.1, r.2)
    else
      match r.1 with
      | [] => ([], b :: r.2)
      | rec :: recs => ((b :: rec) :: recs, r.2)

/-- A record is published iff it is non-empty (empty records are heartbeats)
and parses as an `Event` (`Event.parse_raw`); the parser is abstracted as a
boolean predicate on the raw bytes, since the published payload is the raw
record itself. -/
def validRec (parses : List Nat → Bool) (r : List Nat) : Bool :=
  !r.isEmpty && parses r

/-- Processing of one received chunk in `dustkid_events` (dustkid.py): append
to the buffer, split off the completed records, publish the valid ones, keep
the tail. `acc` is `(published so far, buffer)`. -/
def stepChunk (parses : List Nat → Bool) (acc : List (List Nat) × List Nat)
    (chunk : List Nat) : List (List Nat) × List Nat :=
  let s := splitRS (acc.2 ++ chunk)
  (acc.1 ++ s.1.filter (validRec parses), s.2)

/-- One HTTP connection of `dustkid_events`: the buffer starts empty and the
chunks arrive in order; returns the published records and the final buffer. -/
def processChunks (parses : List Nat → Bool) (chunks : List (List Nat)) :
    List (List Nat) × List Nat :=
  chunks.foldl (stepChunk parses) ([], [])

/-- `DEFAULT_BACKOFF_SECONDS` (dustkid.py). -/
def DEFAULT_BACKOFF_SECONDS : Nat := 1

/-- One iteration of the `while True` connection loop of `dustkid_events`
(dustkid.py): process the chunks the stream yields (the
`backoff_seconds = DEFAULT_BACKOFF_SECONDS` reset sits inside the chunk loop,
so it runs once per received chunk), then, when the stream ends, sleep the
current backoff and double it.  The accumulator is
`(published, buffer, backoff_seconds)`; the result is
`(published records, seconds slept, backoff after the iteration)`. -/
def connectionAttempt (parses : List Nat → Bool) (backoff : Nat)
    (chunks : List (List Nat)) : List (List Nat) × Nat × Nat :=
  let folded := chunks.foldl
    (fun acc chunk =>
      let s := splitRS (acc.2.1 ++ chunk)
      (acc.1 ++ s.1.filter (validRec parses), s.2, DEFAULT_BACKOFF_SECONDS))
    ([], [], backoff)
  (folded.1, folded.2.2, folded.2.2 * 2)

/-- `EMPTY_LOBBY_TIMEOUT.seconds` (server.py): `timedelta(minutes=5)` is 300
seconds. -/
def EMPTY_LOBBY_TIMEOUT : Nat := 300

/-- The `BaseLobby` state relevant to the empty-lobby countdown (server.py):
the attached client identities, the time at which a pending close countdown
was armed (`self.closing` task, `none` when no countdown is pending), whether
`self.on_close` has been set, and the current time in seconds. -/
structure BaseLobbyState where
  clients : List Nat
  closingAt : Option Nat
  onClose : Bool
  now : Nat
  deriving DecidableEq, Repr

/-- `BaseLobby._check_empty` (server.py): if no clients remain, schedule the
close task (arming the countdown at the current time). -/
def check_empty (st : BaseLobbyState) : BaseLobbyState :=
  if st.clients.isEmpty then { st with closingAt := some st.now } else st

/-- `BaseLobby.__init__` (server.py): no clients attached yet, then
`self._check_empty()` runs as the last statement of the constructor. -/
def initBaseLobby (t : Nat) : BaseLobbyState :=
  check_empty { clients := [], closingAt := none, onClose := false, now := t }

/-- `BaseLobby.on_join` (server.py): attach the client; if a close countdown
is pending, cancel it. -/
def base_on_join (st : BaseLobbyState) (c : Nat) : BaseLobbyState :=
  { st with
    clients := if st.clients.contains c then st.clients else c :: st.clients,
    closingAt := none }

/-- `BaseLobby.on_leave` (server.py): detach the client, then `_check_empty`. -/
def base_on_leave (st : BaseLobbyState) (c : Nat) : BaseLobbyState :=
  check_empty { st with clients := st.clients.erase c }

/-- Passage of `d` seconds: the pending close task (armed at `closingAt`)
fires `EMPTY_LOBBY_TIMEOUT` seconds after it was armed, setting `on_close`. -/
def elapse (st : BaseLobbyState) (d : Nat) : BaseLobbyState :=
  { st with
    now := st.now + d,
    onClose := st.onClose ||
      match st.closingAt with
      | some t => decide (t + EMPTY_LOBBY_TIMEOUT ≤ st.now + d)
      | none => false }

/-- `MAX_LOBBY_COUNT` (server.py). -/
def MAX_LOBBY_COUNT : Nat := 100

/-- The process-wide lobby table (server.py `Lobby.lobbies` / `Lobby.next_id`):
the ids of the live lobbies in insertion order, and the next id to try. -/
structure LobbyTable where
  lobbies : List Nat
  nextId : Nat
  deriving DecidableEq, Repr

/-- The id-allocation loop of `Lobby.create` (server.py):
`while id is None or id in Lobby.lobbies: id = Lobby.next_id; Lobby.next_id += 1`,
entered with `id = None`.  The Python loop terminates because ids grow
unboundedly while the table is finite; the embedding carries fuel, and
`lobbies.length + 1` units are enough (see `allocId_fresh`). -/
def allocId (lobbies : List Nat) : Nat → Nat → Nat × Nat
  | nextId, 0 => (nextId, nextId + 1)
  | nextId, fuel + 1 =>
    if nextId ∈ lobbies then allocId lobbies (nextId + 1) fuel else (nextId, nextId + 1)

/-- `Lobby.create` (server.py): refuse when `MAX_LOBBY_COUNT` lobbies are
live, refuse an explicitly requested id that is taken, otherwise allocate an
id (fresh ones via the `next_id` loop) and append the new lobby to the
table. -/
def lobbyCreate (t : LobbyTable) (id? : Option Nat) : Option Nat × LobbyTable :=
  if MAX_LOBBY_COUNT ≤ t.lobbies.length then (none, t)
  else
    match id? with
    | some i =>
      if i ∈ t.lobbies then (none, t)
      else (some i, { lobbies := t.lobbies ++ [i], nextId := t.nextId })
    | none =>
      let a := allocId t.lobbies t.nextId (t.lobbies.length + 1)
      (some a.1, { lobbies := t.lobbies ++ [a.1], nextId := a.2 })

/-- Replies sent by `Manager.handle_create_lobby` (server.py). -/
inductive Reply where
  | error
  | createdLobby (lobby_id : Nat) (password : String)
  deriving DecidableEq, Repr

/-- `Manager.handle_create_lobby` (server.py): `Lobby.create()` with no id;
reply `error` when it returns `None`, else `created_lobby{id, password}`.
`pwd` is the random password drawn in `Lobby.__init__`. -/
def handle_create_lobby (t : LobbyTable) (pwd : String) : Reply × LobbyTable :=
  match lobbyCreate t none with
  | (none, t') => (.error, t')
  | (some i, t') => (.createdLobby i pwd, t')

/-- Reachable lobby tables: initially empty with `next_id = 0`; `Lobby.create`
may run, and a closing lobby deletes itself from the table
(`del Lobby.lobbies[id]` in `run_lobby`). -/
inductive Reachable : LobbyTable → Prop where
  | init : Reachable ⟨[], 0⟩
  | create (t : LobbyTable) (id? : Option Nat) :
      Reachable t → Reachable (lobbyCreate t id?).2
  | close (t : LobbyTable) (i : Nat) :
      Reachable t → Reachable { t with lobbies := t.lobbies.erase i }

/-! ### Lemmas about the stable timestamp sort -/

theorem insertTS_ne_nil (x : Nat × Score) (l : List (Nat × Score)) : insertTS x l ≠ [] := by
  cases l with
  | nil => simp [insertTS]
  | cons y ys =>
    simp only [insertTS]
    split <;> simp

theorem mem_insertTS {y x : Nat × Score} {l : List (Nat × Score)} :
    y ∈ insertTS x l ↔ y = x ∨ y ∈ l := by
  induction l with
  | nil => simp [insertTS]
  | cons z zs ih =>
    simp only [insertTS]
    split
    · simp only [List.mem_cons, ih]
      tauto
    · simp only [List.mem_cons]

theorem mem_sortTS {y : Nat × Score} {l : List (Nat × Score)} :
    y ∈ sortTS l ↔ y ∈ l := by
  induction l with
  | nil => simp [sortTS]
  | cons x xs ih => simp [sortTS, mem_insertTS, ih]

/-- The comparison used by the sort. -/
def tsLE (a b : Nat × Score) : Prop := a.2.timestamp ≤ b.2.timestamp

theorem pairwise_insertTS {x : Nat × Score} {l : List (Nat × Score)}
    (h : l.Pairwise tsLE) : (insertTS x l).Pairwise tsLE := by
  induction l with
  | nil => simp [insertTS, List.Pairwise]
  | cons y ys ih =>
    rw [List.pairwise_cons] at h
    obtain ⟨hy, hys⟩ := h
    simp only [insertTS]
    split
    · rename_i hlt
      rw [List.pairwise_cons]
      refine ⟨?_, ih hys⟩
      intro z hz
      rcases mem_insertTS.mp hz with rfl | hz
      · exact le_of_lt hlt
      · exact hy z hz
    · rename_i hge
      rw [List.pairwise_cons]
      refine ⟨?_, List.pairwise_cons.mpr ⟨hy, hys⟩⟩
      intro z hz
      rcases List.mem_cons.mp hz with rfl | hz
      · exact le_of_not_lt hge
      · exact le_trans (le_of_not_lt hge) (hy z hz)

theorem sortTS_pairwise (l : List (Nat × Score)) : (sortTS l).Pairwise tsLE := by
  induction l with
  | nil => simp [sortTS]
  | cons x xs ih => exact pairwise_insertTS ih

theorem getLast?_insertTS {x : Nat × Score} {l : List (Nat × Score)}
    (h : l.Pairwise tsLE) :
    (insertTS x l).getLast? =
      some (match l.getLast? with
            | none => x
            | some y => if y.2.timestamp < x.2.timestamp then x else y) := by
  induction l with
  | nil => simp [insertTS]
  | cons y ys ih =>
    rw [List.pairwise_cons] at h
    obtain ⟨hy, hys⟩ := h
    simp only [insertTS]
    split
    · rename_i hlt
      cases hi : insertTS x ys with
      | nil => exact absurd hi (insertTS_ne_nil x ys)
      | cons a as =>
        rw [List.getLast?_cons_cons, ← hi, ih hys]
        cases ys with
        | nil => simp [hlt]
        | cons z zs => rw [List.getLast?_cons_cons]
    · rename_i hge
      cases hl : (y :: ys).getLast? with
      | none => simp at hl
      | some w =>
        have hw : w ∈ y :: ys := List.mem_of_getLast?_eq_some hl
        have hxw : x.2.timestamp ≤ w.2.timestamp := by
          rcases List.mem_cons.mp hw with rfl | hw
          · exact le_of_not_lt hge
          · exact le_trans (le_of_not_lt hge) (hy w hw)
        rw [List.getLast?_cons_cons, hl]
        simp [not_lt.mpr hxw]

theorem sortTS_getLast? (l : List (Nat × Score)) :
    (sortTS l).getLast? = lastMaxTS l := by
  induction l with
  | nil => simp [sortTS, lastMaxTS]
  | cons x xs ih =>
    rw [sortTS, getLast?_insertTS (sortTS_pairwise xs), ih, lastMaxTS]
    cases lastMaxTS xs with
    | none => rfl
    | some y => by_cases hy : y.2.timestamp < x.2.timestamp <;> simp [hy]

/-! ### Lemmas about the record framing -/

theorem splitRS_cons (b : Nat) (bs : List Nat) :
    splitRS (b :: bs) =
      if b = RS then ([] :: (splitRS bs).1, (splitRS bs).2)
      else
        match (splitRS bs).1 with
        | [] => ([], b :: (splitRS bs).2)
        | rec :: recs => ((b :: rec) :: recs, (splitRS bs).2) := rfl

theorem splitRS_append (xs ys : List Nat) :
    splitRS (xs ++ ys) =
      match (splitRS ys).1 with
      | [] => ((splitRS xs).1, (splitRS xs).2 ++ (splitRS ys).2)
      | r :: rs => ((splitRS xs).1 ++ ((splitRS xs).2 ++ r) :: rs, (splitRS ys).2) := by
  induction xs with
  | nil =>
    rw [List.nil_append]
    cases h : (splitRS ys).1 with
    | nil => rw [Prod.ext_iff]; simp [h, splitRS]
    | cons r rs => rw [Prod.ext_iff]; simp [h, splitRS]
  | cons b bs ih =>
    rw [List.cons_append]
    simp only [splitRS_cons]
    rw [ih]
    by_cases hb : b = RS
    · cases h : (splitRS ys).1 with
      | nil => simp [hb, h]
      | cons r rs => simp [hb, h]
    · cases h : (splitRS ys).1 with
      | nil =>
        cases h2 : (splitRS bs).1 with
        | nil => simp [hb, h, h2]
        | cons rec recs => simp [hb, h, h2]
      | cons r rs =>
        cases h2 : (splitRS bs).1 with
        | nil => simp [hb, h, h2]
        | cons rec recs => simp [hb, h, h2]

theorem splitRS_tail (l : List Nat) : splitRS (splitRS l).2 = ([], (splitRS l).2) := by
  induction l with
  | nil => rfl
  | cons b bs ih =>
    simp only [splitRS]
    by_cases hb : b = RS
    · simp only [hb, if_pos rfl]
      exact ih
    · simp only [if_neg hb]
      cases h2 : (splitRS bs).1 with
      | nil =>
        have hbs : splitRS (splitRS bs).2 = ([], (splitRS bs).2) := ih
        simp only [splitRS, hbs, if_neg hb]
      | cons rec recs => exact ih

theorem foldl_stepChunk (parses : List Nat → Bool) (chunks : List (List Nat)) :
    ∀ pub buf, splitRS buf = ([], buf) →
      chunks.foldl (stepChunk parses) (pub, buf) =
        (pub ++ (splitRS (buf ++ chunks.flatten)).1.filter (validRec parses),
         (splitRS (buf ++ chunks.flatten)).2) := by
  induction chunks with
  | nil =>
    intro pub buf h
    simp [h]
  | cons c cs ih =>
    intro pub buf h
    simp only [List.foldl_cons, stepChunk, List.flatten_cons, ← List.append_assoc]
    rw [ih _ _ (splitRS_tail (buf ++ c))]
    rw [splitRS_append (buf ++ c) cs.flatten,
      splitRS_append ((splitRS (buf ++ c)).2) cs.flatten, splitRS_tail (buf ++ c)]
    cases h2 : (splitRS cs.flatten).1 with
    | nil => simp
    | cons r rs => simp [List.filter_append]

/-! ### Lemmas about the backoff bookkeeping -/

theorem connectionAttempt_foldl (parses : List Nat → Bool) (chunks : List (List Nat)) :
    ∀ pub buf b,
      chunks.foldl
        (fun acc chunk =>
          let s := splitRS (acc.2.1 ++ chunk)
          (acc.1 ++ s.1.filter (validRec parses), s.2, DEFAULT_BACKOFF_SECONDS))
        (pub, buf, b) =
      ((chunks.foldl (stepChunk parses) (pub, buf)).1,
       (chunks.foldl (stepChunk parses) (pub, buf)).2,
       if chunks = [] then b else DEFAULT_BACKOFF_SECONDS) := by
  induction chunks with
  | nil => intro pub buf b; rfl
  | cons c cs ih =>
    intro pub buf b
    simp only [List.foldl_cons, stepChunk, ih]
    simp

theorem connectionAttempt_eq (parses : List Nat → Bool) (b : Nat)
    (chunks : List (List Nat)) :
    connectionAttempt parses b chunks =
      ((processChunks parses chunks).1,
       (if chunks = [] then b else DEFAULT_BACKOFF_SECONDS),
       (if chunks = [] then b else DEFAULT_BACKOFF_SECONDS) * 2) := by
  simp only [connectionAttempt, processChunks, connectionAttempt_foldl]

/-! ### Lemmas about lobby creation -/

theorem allocId_fresh (lobbies : List Nat) :
    ∀ (fuel nextId : Nat), (∃ k, k < fuel ∧ nextId + k ∉ lobbies) →
      (allocId lobbies nextId fuel).1 ∉ lobbies := by
  intro fuel
  induction fuel with
  | zero =>
    intro nextId h
    obtain ⟨k, hk, _⟩ := h
    omega
  | succ fuel ih =>
    intro nextId h
    rw [allocId]
    by_cases hmem : nextId ∈ lobbies
    · rw [if_pos hmem]
      obtain ⟨k, hk, hfree⟩ := h
      cases k with
      | zero => exact absurd hmem (by simpa using hfree)
      | succ k =>
        refine ih _ ⟨k, by omega, ?_⟩
        have heq : nextId + 1 + k = nextId + (k + 1) := by omega
        rw [heq]
        exact hfree
    · rw [if_neg hmem]
      exact hmem

theorem exists_fresh (lobbies : List Nat) (h : lobbies.Nodup) (nextId : Nat) :
    ∃ k, k < lobbies.length + 1 ∧ nextId + k ∉ lobbies := by
  by_contra hc
  push_neg at hc
  have hsub : (Finset.range (lobbies.length + 1)).image (fun k => nextId + k) ⊆
      lobbies.toFinset := by
    intro x hx
    simp only [Finset.mem_image, Finset.mem_range] at hx
    obtain ⟨k, hk, rfl⟩ := hx
    exact List.mem_toFinset.mpr (hc k hk)
  have hcard : ((Finset.range (lobbies.length + 1)).image (fun k => nextId + k)).card =
      lobbies.length + 1 := by
    rw [Finset.card_image_of_injective _ (add_right_injective nextId), Finset.card_range]
  have := Finset.card_le_card hsub
  rw [hcard, List.toFinset_card_of_nodup h] at this
  omega

theorem reachable_inv {t : LobbyTable} (h : Reachable t) :
    t.lobbies.Nodup ∧ t.lobbies.length ≤ MAX_LOBBY_COUNT := by
  induction h with
  | init => simp [MAX_LOBBY_COUNT]
  | create t id? _ ih =>
    rw [lobbyCreate.eq_def]
    by_cases hfull : MAX_LOBBY_COUNT ≤ t.lobbies.length
    · rw [if_pos hfull]; exact ih
    · rw [if_neg hfull]
      cases id? with
      | some i =>
        by_cases hmem : i ∈ t.lobbies
        · simp only [if_pos hmem]; exact ih
        · simp only [if_neg hmem]
          constructor
          · simp [List.nodup_append, ih.1, hmem]
          · simp only [List.length_append, List.length_singleton]
            omega
      | none =>
        have hfresh : (allocId t.lobbies t.nextId (t.lobbies.length + 1)).1 ∉ t.lobbies :=
          allocId_fresh t.lobbies (t.lobbies.length + 1) t.nextId
            (exists_fresh t.lobbies ih.1 t.nextId)
        constructor
        · simp [List.nodup_append, ih.1, hfresh]
        · simp only [List.length_append, List.length_singleton]
          omega
  | close t i _ ih =>
    exact ⟨(List.erase_sublist i t.lobbies).nodup ih.1,
      le_trans (List.length_erase_le i t.lobbies) ih.2⟩

/-! ### Frame lemmas for the lobby operations -/

theorem on_dustkid_event_frame (st : LobbyState) (e : Event) :
    ∃ sc, (on_dustkid_event st e).state = { st with scores := sc } := by
  simp only [on_dustkid_event]
  repeat' split
  all_goals exact ⟨_, rfl⟩

theorem on_dustkid_event_users (st : LobbyState) (e : Event) :
    (on_dustkid_event st e).state.users = st.users ∧
    (on_dustkid_event st e).state.eliminated = st.eliminated := by
  obtain ⟨sc, hsc⟩ := on_dustkid_event_frame st e
  rw [hsc]
  exact ⟨rfl, rfl⟩

theorem mem_map_fst_dictSet {α : Type} {d : List (Nat × α)} {k : Nat} {v : α} {x : Nat}
    (h : x ∈ d.map Prod.fst) : x ∈ (dictSet d k v).map Prod.fst := by
  induction d with
  | nil => simp at h
  | cons p rest ih =>
    obtain ⟨k', v'⟩ := p
    rw [dictSet]
    by_cases hk : k' = k
    · simpa [hk] using h
    · rw [if_neg hk]
      simp only [List.map_cons, List.mem_cons] at h ⊢
      rcases h with h | h
      · exact Or.inl h
      · exact Or.inr (ih h)

theorem roundOut_subset (st : LobbyState) : roundOut st ⊆ remaining st := by
  have hmem : ∀ p ∈ sortTS (roundScorers st), p.1 ∈ remaining st := by
    intro p hp
    have hm := mem_sortTS.mp hp
    simp only [roundScorers, List.mem_filter, decide_eq_true_eq] at hm
    exact hm.2
  simp only [roundOut]
  by_cases hA : remaining st \ scoresKeys st = ∅
  · rw [if_pos hA]
    cases hg : (sortTS (roundScorers st)).getLast? with
    | none =>
      simp
    | some p =>
      simp only
      by_cases hEq : ({p.1} : Finset Nat) = remaining st
      · rw [if_pos hEq]
        exact Finset.empty_subset _
      · rw [if_neg hEq]
        intro x hx
        rw [Finset.mem_singleton] at hx
        subst hx
        exact hmem p (List.mem_of_getLast?_eq_some hg)
  · rw [if_neg hA]
    by_cases hEq : remaining st \ scoresKeys st = remaining st
    · rw [if_pos hEq]
      exact Finset.empty_subset _
    · rw [if_neg hEq]
      exact Finset.sdiff_subset

/-! ### Claim C1 -/

/-- A lobby state for exercising the score-replacement check: user 1 holds a
stored SS score `(5, 5, time 100, timestamp 20)` during an active `any`-mode
round with window `[0, 60]`. -/
def pbSt : LobbyState :=
  { password := "pw", condition := some Cond.condAny, round_time := 60,
    round_end := some 60, users := [(1, "a")], allow_joining := false,
    level := some ⟨"foo"⟩, scores := [(1, ⟨5, 5, 100, 20⟩)], start_round := true,
    eliminated := ∅ }

/-- An accepted event for user 1 that is strictly worse under `ss_key`
(completion 1, finesse 1, slower time) but has an earlier timestamp. -/
def pbEvent : Event :=
  { user := 1, level := "foo", time := 999, score_completion := 1,
    score_finesse := 1, timestamp := 10 }

/-- C1: the code's replacement test is `old_score.timestamp > new_score.timestamp`,
not a comparison under the `ss_key` order.  At `pbSt`/`pbEvent` the code
replaces the stored score with `(1, 1, 999, 10)`, which is strictly worse than
the stored `(5, 5, 100, 20)` under the `ss_key` total order — so replacement
is not "iff strictly better" and is not monotone under that order, although
`Score.ss_key` documents that order in the source. -/
theorem C1_replacement_ignores_ss_key :
    (on_dustkid_event pbSt pbEvent).state.scores = [(1, ⟨1, 1, 999, 10⟩)] ∧
    (on_dustkid_event pbSt pbEvent).broadcast = true ∧
    keyLt (Score.ss_key ⟨1, 1, 999, 10⟩) (Score.ss_key ⟨5, 5, 100, 20⟩) = true ∧
    dictGet pbSt.scores 1 = some ⟨5, 5, 100, 20⟩ := by
  refine ⟨by decide, by decide, by decide, by decide⟩

/-! ### Claim C2 -/

theorem roundOut_eq_amendedOut (st : LobbyState) : roundOut st = amendedOut st := by
  simp only [roundOut, amendedOut, sortTS_getLast?]

/-- C2: the end-of-round update is exactly the claimed algorithm, except that
the tie-break between equal timestamps selects the scorer latest in the
`scores` dict's insertion order (the order in which users first posted an
accepted score; in-place updates keep a user's original position), rather
than the most recently observed scoring event: `eliminated` grows by the
amended `out` and `scores` is cleared. -/
theorem C2_elimination_rule (st : LobbyState) :
    roundEnd st =
      { st with eliminated := st.eliminated ∪ amendedOut st, scores := [] } := by
  rw [roundEnd, roundOut_eq_amendedOut]

/-- Lobby state for the C2 tie-break counterexample: users 1 and 2, active
`any`-mode round with window `[0, 60]`, no scores yet. -/
def c2St : LobbyState :=
  { password := "pw", condition := some Cond.condAny, round_time := 60,
    round_end := some 60, users := [(1, "a"), (2, "b")], allow_joining := false,
    level := some ⟨"foo"⟩, scores := [], start_round := true, eliminated := ∅ }

/-- An accepted event for user `u` with timestamp `ts` on the c2 level. -/
def c2Ev (u : Nat) (ts : Int) : Event :=
  { user := u, level := "foo", time := 500, score_completion := 4,
    score_finesse := 4, timestamp := ts }

/-- The counterexample trace: user 1 scores at t=12, user 2 at t=10, then
user 1 improves in place to t=10.  At round end users 1 and 2 are tied at
timestamp 10. -/
def c2Trace : List Event := [c2Ev 1 12, c2Ev 2 10, c2Ev 1 10]

/-- C2 counterexample: after `c2Trace` both remaining users are tied at
timestamp 10; the claim's tie-break ("most recently observed scoring event")
selects user 1, whose write was observed last, but the code eliminates user 2,
because user 1 kept its earlier position in the `scores` dict. -/
theorem C2_tie_break_counterexample :
    roundOut (runEvents c2St c2Trace) = {2} ∧
    claimTieBreak c2St c2Trace = some 1 ∧
    roundOut (runEvents c2St c2Trace) ≠ {1} := by
  refine ⟨by decide, by decide, by decide⟩

/-! ### Claim C3 -/

theorem dropped_frame (st : LobbyState) (e : Event) :
    (on_dustkid_event st e).dropped = true →
      (on_dustkid_event st e).state = st ∧ (on_dustkid_event st e).broadcast = false := by
  simp only [on_dustkid_event]
  repeat' split
  all_goals simp

theorem not_dropped_of_guards (st : LobbyState) (e : Event) (lv : LevelR) (c : Cond)
    (re : Int) (hl : st.level = some lv) (hlv : e.level = lv.filename)
    (hcond : st.condition = some c) (hacc : condAccepts c e = true)
    (hre : st.round_end = some re)
    (hts : ¬(e.timestamp < re - st.round_time ∨ re < e.timestamp)) :
    (on_dustkid_event st e).dropped = false := by
  simp only [on_dustkid_event, hl, hcond, hre]
  rw [if_neg (by simp [hlv]), if_neg (by simp [hacc]), if_neg hts]
  cases hdg : dictGet st.scores e.user with
  | none => rfl
  | some old => simp only; split <;> rfl

theorem dropped_iff (st : LobbyState) (e : Event) :
    (on_dustkid_event st e).dropped = true ↔
      ((st.level = none ∨ ∃ lv, st.level = some lv ∧ e.level ≠ lv.filename) ∨
       st.condition = none ∨
       (∃ c, st.condition = some c ∧ condAccepts c e = false) ∨
       st.round_end = none ∨
       (∃ re, st.round_end = some re ∧
         (e.timestamp < re - st.round_time ∨ re < e.timestamp))) := by
  cases hl : st.level with
  | none => simp [on_dustkid_event, hl]
  | some lv =>
    by_cases hlv : e.level = lv.filename
    case neg =>
      have hd : (on_dustkid_event st e).dropped = true := by
        simp [on_dustkid_event, hl, hlv]
      simp [hd, hl]
      exact Or.inl hlv
    case pos =>
      cases hcond : st.condition with
      | none =>
        have hd : (on_dustkid_event st e).dropped = true := by
          simp [on_dustkid_event, hl, hlv, hcond]
        simp [hd, hl, hlv, hcond]
      | some c =>
        by_cases hacc : condAccepts c e = true
        case neg =>
          have hd : (on_dustkid_event st e).dropped = true := by
            simp [on_dustkid_event, hl, hlv, hcond, hacc]
          simp [hd, hl, hlv, hcond]
          exact Or.inl (by simpa using hacc)
        case pos =>
          cases hre : st.round_end with
          | none =>
            have hd : (on_dustkid_event st e).dropped = true := by
              simp [on_dustkid_event, hl, hlv, hcond, hacc, hre]
            simp [hd, hl, hlv, hcond, hacc, hre]
          | some re =>
            by_cases hts : e.timestamp < re - st.round_time ∨ re < e.timestamp
            case pos =>
              have hd : (on_dustkid_event st e).dropped = true := by
                simp only [on_dustkid_event, hl, hcond, hre]
                rw [if_neg (by simp [hlv]), if_neg (by simp [hacc]), if_pos hts]
              simp [hd, hl, hlv, hcond, hacc, hre, hts]
            case neg =>
              have hd := not_dropped_of_guards st e lv c re hl hlv hcond hacc hre hts
              simp [hd, hl, hlv, hcond, hacc, hre, hts]

/-- C3: with one of the two installable predicates in place, the event is
dropped by `on_dustkid_event` — leaving the state unchanged and broadcasting
nothing — exactly when the level is unset or mismatched, or the installed
predicate rejects the event (`ss` accepts only completion 5 and finesse 5,
`any` accepts everything), or no round is active, or the timestamp falls
outside the closed window `[round_end - round_time, round_end]`. -/
theorem C3_event_drop_conditions (st : LobbyState) (e : Event)
    (hc : st.condition = some Cond.condAny ∨ st.condition = some Cond.condSS) :
    ((on_dustkid_event st e).dropped = true ↔
      ((st.level = none ∨ ∃ lv, st.level = some lv ∧ e.level ≠ lv.filename) ∨
       (∃ c, st.condition = some c ∧ condAccepts c e = false) ∨
       st.round_end = none ∨
       (∃ re, st.round_end = some re ∧
         ¬(re - st.round_time ≤ e.timestamp ∧ e.timestamp ≤ re)))) ∧
    ((on_dustkid_event st e).dropped = true →
      (on_dustkid_event st e).state = st ∧ (on_dustkid_event st e).broadcast = false) ∧
    (∀ e', condAccepts Cond.condAny e' = true) ∧
    (∀ e', condAccepts Cond.condSS e' = true ↔
      (e'.score_completion = 5 ∧ e'.score_finesse = 5)) := by
  obtain ⟨c, hcond⟩ : ∃ c, st.condition = some c := by
    rcases hc with h | h
    · exact ⟨_, h⟩
    · exact ⟨_, h⟩
  refine ⟨?_, dropped_frame st e, fun e' => rfl, fun e' => ?_⟩
  · rw [dropped_iff]
    constructor
    · rintro (h | h | h | h | h)
      · exact Or.inl h
      · rw [h] at hcond; cases hcond
      · exact Or.inr (Or.inl h)
      · exact Or.inr (Or.inr (Or.inl h))
      · obtain ⟨re, hre, hout⟩ := h
        exact Or.inr (Or.inr (Or.inr ⟨re, hre, by omega⟩))
    · rintro (h | h | h | h)
      · exact Or.inl h
      · exact Or.inr (Or.inr (Or.inl h))
      · exact Or.inr (Or.inr (Or.inr (Or.inl h)))
      · obtain ⟨re, hre, hout⟩ := h
        exact Or.inr (Or.inr (Or.inr (Or.inr ⟨re, hre, by omega⟩)))
  · simp only [condAccepts, Bool.and_eq_true, beq_iff_eq]

/-- Concrete state for the C3 witness: active `ss`-mode round. -/
def c3St : LobbyState :=
  { password := "pw", condition := some Cond.condSS, round_time := 60,
    round_end := some 60, users := [(1, "a")], allow_joining := false,
    level := some ⟨"foo"⟩, scores := [], start_round := true, eliminated := ∅ }

/-- A non-SS event on the right level inside the window, dropped in `ss` mode. -/
def c3Event : Event :=
  { user := 1, level := "foo", time := 100, score_completion := 5,
    score_finesse := 4, timestamp := 30 }

theorem C3_event_drop_conditions_witness :
    (c3St.condition = some Cond.condAny ∨ c3St.condition = some Cond.condSS) ∧
    ((on_dustkid_event c3St c3Event).dropped = true →
      (on_dustkid_event c3St c3Event).state = c3St ∧
      (on_dustkid_event c3St c3Event).broadcast = false) :=
  ⟨by decide, (C3_event_drop_conditions c3St c3Event (by decide)).2.1⟩

/-! ### Claim C4 -/

/-- A lobby state satisfying the claimed invariant: one user, no scores. -/
def c4St : LobbyState :=
  { password := "pw", condition := some Cond.condAny, round_time := 60,
    round_end := some 60, users := [(1, "a")], allow_joining := false,
    level := some ⟨"foo"⟩, scores := [], start_round := true, eliminated := ∅ }

/-- An accepted event from user 99, who is not in the lobby's `users`. -/
def c4Event : Event :=
  { user := 99, level := "foo", time := 100, score_completion := 5,
    score_finesse := 5, timestamp := 30 }

/-- C4 counterexample: `on_dustkid_event` stores a score keyed by the event's
user without checking membership in `users`, so `scores.keys ⊆ users.keys`
is not preserved: from a state satisfying it, an accepted event from user 99
(not in `users`) yields `scores.keys = {99} ⊄ users.keys = {1}`. -/
theorem C4_scores_subset_counterexample :
    scoresKeys c4St ⊆ usersKeys c4St ∧
    c4St.eliminated ⊆ usersKeys c4St ∧
    ¬ scoresKeys (on_dustkid_event c4St c4Event).state ⊆
        usersKeys (on_dustkid_event c4St c4Event).state := by
  refine ⟨by decide, by decide, by decide⟩

/-- C4 (amended): `eliminated ⊆ users.keys` is an invariant — it is preserved
by `on_login`, `on_logout`, `on_dustkid_event` and the end-of-round
elimination (`join`/`leave` touch only the client table) — but
`scores.keys ⊆ users.keys` is not: `on_dustkid_event` may store a score for a
user outside `users` (see the counterexample); state snapshots and the
elimination step filter `scores` through `remaining` instead. -/
theorem C4_eliminated_subset_users (st : LobbyState)
    (h : st.eliminated ⊆ usersKeys st) :
    (∀ uid name, (on_login st uid name).eliminated ⊆
      usersKeys (on_login st uid name)) ∧
    ((on_logout st).eliminated ⊆ usersKeys (on_logout st)) ∧
    (∀ e, (on_dustkid_event st e).state.eliminated ⊆
      usersKeys (on_dustkid_event st e).state) ∧
    ((roundEnd st).eliminated ⊆ usersKeys (roundEnd st)) := by
  refine ⟨?_, h, ?_, ?_⟩
  · intro uid name
    simp only [on_login]
    split
    · intro x hx
      have hx2 := h hx
      simp only [usersKeys, List.mem_toFinset] at hx2 ⊢
      exact mem_map_fst_dictSet hx2
    · exact h
  · intro e
    obtain ⟨sc, hsc⟩ := on_dustkid_event_frame st e
    rw [hsc]
    exact h
  · show st.eliminated ∪ roundOut st ⊆ usersKeys st
    exact Finset.union_subset h ((roundOut_subset st).trans Finset.sdiff_subset)

theorem C4_eliminated_subset_users_witness :
    c4St.eliminated ⊆ usersKeys c4St ∧
    ((roundEnd c4St).eliminated ⊆ usersKeys (roundEnd c4St)) :=
  ⟨by decide, (C4_eliminated_subset_users c4St (by decide)).2.2.2⟩

/-! ### Claim C5 -/

/-- A client logged in as user 7. -/
def c5Client : ClientR := ⟨some (7, "u")⟩

/-- A lobby whose `users` mapping contains user 7. -/
def c5St : LobbyState :=
  { password := "pw", condition := none, round_time := 60, round_end := none,
    users := [(7, "u")], allow_joining := true, level := none, scores := [],
    start_round := false, eliminated := ∅ }

/-- C5 counterexample: `Lobby.on_logout` is `pass`, so an explicit logout does
not remove the user from the lobby's `users` mapping — user 7 is still mapped
after the logout, contradicting the claim that logout removes it. -/
theorem C5_logout_counterexample :
    (client_logout c5Client c5St).2.users = [(7, "u")] ∧
    dictGet (client_logout c5Client c5St).2.users 7 = some "u" ∧
    (client_logout c5Client c5St).1.user = none := by
  refine ⟨by decide, by decide, by decide⟩

/-- C5 (amended): `Client.logout` clears the client's `user` field and leaves
the lobby state — `users` included — untouched (`on_logout` is `pass`); and no
lobby operation ever removes a user id from `users`: login only grows it, and
event handling and round elimination leave it unchanged.  A logged-in user
therefore stays in `users` for the lobby's lifetime. -/
theorem C5_logout_keeps_users (c : ClientR) (st : LobbyState) :
    (client_logout c st).1.user = none ∧
    (client_logout c st).2 = st ∧
    (∀ uid name, usersKeys st ⊆ usersKeys (on_login st uid name)) ∧
    (∀ e, usersKeys (on_dustkid_event st e).state = usersKeys st) ∧
    usersKeys (roundEnd st) = usersKeys st := by
  refine ⟨rfl, rfl, ?_, ?_, rfl⟩
  · intro uid name x hx
    simp only [on_login]
    split
    · simp only [usersKeys, List.mem_toFinset] at hx ⊢
      exact mem_map_fst_dictSet hx
    · exact hx
  · intro e
    obtain ⟨sc, hsc⟩ := on_dustkid_event_frame st e
    rw [hsc]
    rfl

/-! ### Claim C6 -/

/-- A parser accepting every record, for concrete ingester runs. -/
def anyParser : List Nat → Bool := fun _ => true

/-- C6 counterexample: a reconnect entered with backoff 4 whose stream yields
a single chunk consisting of one heartbeat (`0x1E`) publishes nothing, yet
the next sleep is 1 second (the claim requires 4, since no event was
published) and the backoff afterwards is 2 (the claim requires 8). -/
theorem C6_backoff_reset_counterexample :
    connectionAttempt anyParser 4 [[RS]] = ([], 1, 2) ∧ (1 : Nat) ≠ 4 := by
  refine ⟨by decide, by decide⟩

/-- C6 (amended): the backoff starts at `DEFAULT_BACKOFF_SECONDS = 1`; when a
connection's stream ends, the ingester sleeps the current backoff and doubles
it, so successive chunkless failures sleep `b, 2b, 4b, …` with no upper
bound.  The backoff is reset to 1 exactly when the connection yielded at
least one chunk — even a chunk carrying only heartbeats or unparseable
records, with no successful publish — and a connection yielding no chunk at
all leaves the doubled backoff in place.  The records published during the
attempt are those of `processChunks`. -/
theorem C6_backoff_discipline (parses : List Nat → Bool) (b : Nat)
    (chunks : List (List Nat)) :
    connectionAttempt parses b chunks =
      ((processChunks parses chunks).1,
       (if chunks = [] then b else DEFAULT_BACKOFF_SECONDS),
       (if chunks = [] then b else DEFAULT_BACKOFF_SECONDS) * 2) ∧
    DEFAULT_BACKOFF_SECONDS = 1 :=
  ⟨connectionAttempt_eq parses b chunks, rfl⟩

/-! ### Claim C7 -/

/-- C7: the records published over one connection are exactly the non-empty,
parseable records obtained by splitting the concatenation of all chunks on
`0x1E`, with the final unterminated part held in the buffer; published records
do not depend on where the chunk boundaries fall. -/
theorem C7_framing_roundtrip (parses : List Nat → Bool)
    (chunks chunks' : List (List Nat)) (h : chunks.flatten = chunks'.flatten) :
    processChunks parses chunks =
      ((splitRS chunks.flatten).1.filter (validRec parses),
       (splitRS chunks.flatten).2) ∧
    processChunks parses chunks = processChunks parses chunks' := by
  have e1 : processChunks parses chunks =
      ((splitRS chunks.flatten).1.filter (validRec parses),
       (splitRS chunks.flatten).2) := by
    have h1 := foldl_stepChunk parses chunks [] [] rfl
    simpa [processChunks] using h1
  have e2 : processChunks parses chunks' =
      ((splitRS chunks'.flatten).1.filter (validRec parses),
       (splitRS chunks'.flatten).2) := by
    have h2 := foldl_stepChunk parses chunks' [] [] rfl
    simpa [processChunks] using h2
  refine ⟨e1, ?_⟩
  rw [e1, e2, h]

theorem C7_framing_roundtrip_witness :
    ([[97], [30, 98]] : List (List Nat)).flatten = ([[97, 30], [98]] : List (List Nat)).flatten ∧
    processChunks anyParser [[97], [30, 98]] = processChunks anyParser [[97, 30], [98]] :=
  ⟨by decide, (C7_framing_roundtrip anyParser [[97], [30, 98]] [[97, 30], [98]] (by decide)).2⟩

/-! ### Claim C8 -/

/-- C8: from any reachable lobby table, `handle_create_lobby` replies
`created_lobby{id, password}` with a freshly allocated lobby appended to the
table exactly when the number of live lobbies is below
`MAX_LOBBY_COUNT = 100`; at or above the bound it replies `error` and changes
nothing; and every reachable table holds at most 100 lobbies. -/
theorem C8_create_lobby_capacity (t : LobbyTable) (pwd : String)
    (hr : Reachable t) :
    (t.lobbies.length < MAX_LOBBY_COUNT ↔
      ∃ i t', handle_create_lobby t pwd = (Reply.createdLobby i pwd, t') ∧
        i ∉ t.lobbies ∧ t'.lobbies = t.lobbies ++ [i]) ∧
    (MAX_LOBBY_COUNT ≤ t.lobbies.length →
      handle_create_lobby t pwd = (Reply.error, t)) ∧
    t.lobbies.length ≤ MAX_LOBBY_COUNT := by
  obtain ⟨hnodup, hlen⟩ := reachable_inv hr
  have herror : MAX_LOBBY_COUNT ≤ t.lobbies.length →
      handle_create_lobby t pwd = (Reply.error, t) := by
    intro hge
    rw [handle_create_lobby, lobbyCreate.eq_def, if_pos hge]
  refine ⟨⟨?_, ?_⟩, herror, hlen⟩
  · intro hlt
    have hnle : ¬ MAX_LOBBY_COUNT ≤ t.lobbies.length := not_le.mpr hlt
    have hfresh : (allocId t.lobbies t.nextId (t.lobbies.length + 1)).1 ∉ t.lobbies :=
      allocId_fresh t.lobbies (t.lobbies.length + 1) t.nextId
        (exists_fresh t.lobbies hnodup t.nextId)
    have hcl : lobbyCreate t none =
        (some (allocId t.lobbies t.nextId (t.lobbies.length + 1)).1,
         ⟨t.lobbies ++ [(allocId t.lobbies t.nextId (t.lobbies.length + 1)).1],
          (allocId t.lobbies t.nextId (t.lobbies.length + 1)).2⟩) := by
      rw [lobbyCreate.eq_def, if_neg hnle]
    exact ⟨_, _, by rw [handle_create_lobby, hcl], hfresh, rfl⟩
  · intro hex
    by_contra hge
    obtain ⟨i, t', heq, _, _⟩ := hex
    rw [herror (le_of_not_lt hge)] at heq
    cases heq

theorem C8_create_lobby_capacity_witness :
    Reachable ⟨[], 0⟩ ∧ (⟨[], 0⟩ : LobbyTable).lobbies.length ≤ MAX_LOBBY_COUNT :=
  ⟨Reachable.init, (C8_create_lobby_capacity ⟨[], 0⟩ "p" Reachable.init).2.2⟩

/-! ### Claim C9 -/

/-- C9: `on_start_round` leaves the lobby untouched on a password mismatch,
on a failed level resolution (no reusable level and the catalog lookup
returned none), or when a game is already in progress; when the current
level's id matches the requested one the result never consults the catalog
lookup; and on acceptance it installs the predicate for the mode (`any` or
`ss`; any other mode string keeps the previous predicate), sets the level,
and sets the `start_round` signal. -/
theorem C9_start_round_guards (st : LobbyState) (p : String) (lid : Int)
    (mode : String) (resolved : Option LevelR) :
    (p ≠ st.password → on_start_round st p lid mode resolved = st) ∧
    (resolveNewLevel st lid resolved = none →
      on_start_round st p lid mode resolved = st) ∧
    (st.start_round = true → on_start_round st p lid mode resolved = st) ∧
    (∀ lv, st.level = some lv → lv.id = some lid →
      ∀ r', on_start_round st p lid mode resolved =
        on_start_round st p lid mode r') ∧
    (∀ nl, p = st.password → st.start_round = false →
      resolveNewLevel st lid resolved = some nl →
      on_start_round st p lid mode resolved =
        { st with
          condition := if mode = "any" then some Cond.condAny
                       else if mode = "ss" then some Cond.condSS
                       else st.condition,
          level := some nl,
          start_round := true }) := by
  refine ⟨?_, ?_, ?_, ?_, ?_⟩
  · intro hp
    rw [on_start_round, if_pos hp]
  · intro hres
    rw [on_start_round]
    split
    · rfl
    · rw [hres]
  · intro hsr
    rw [on_start_round]
    split
    · rfl
    · cases hres : resolveNewLevel st lid resolved with
      | none => rfl
      | some nl => simp [hsr]
  · intro lv hlv hid r'
    have hres : ∀ r'' : Option LevelR, resolveNewLevel st lid r'' = some lv := by
      intro r''
      simp [resolveNewLevel, hlv, hid]
    rw [on_start_round, on_start_round, hres resolved, hres r']
  · intro nl hp hsr hres
    rw [on_start_round, if_neg (by simp [hp]), hres]
    simp only [hsr]
    rw [if_neg (by simp)]

/-- Concrete state for the C9 witness: correct password, idle lobby. -/
def c9St : LobbyState :=
  { password := "pw", condition := none, round_time := 60, round_end := none,
    users := [], allow_joining := true, level := none, scores := [],
    start_round := false, eliminated := ∅ }

theorem C9_start_round_guards_witness :
    ("x" ≠ c9St.password) ∧ on_start_round c9St "x" 1 "any" none = c9St :=
  ⟨by decide, (C9_start_round_guards c9St "x" 1 "any" none).1 (by decide)⟩

/-! ### Claim C10 -/

/-- C10: the close countdown is armed at construction (before any client has
attached), so a never-joined lobby signals close `EMPTY_LOBBY_TIMEOUT`
(5 minutes, 300 s) after creation and not before; a client joining cancels
any pending countdown; and whenever `_check_empty` runs with no clients
attached the countdown is (re)armed. -/
theorem C10_empty_lobby_countdown (t : Nat) :
    (initBaseLobby t).closingAt = some t ∧
    (∀ d, EMPTY_LOBBY_TIMEOUT ≤ d → (elapse (initBaseLobby t) d).onClose = true) ∧
    (∀ d, d < EMPTY_LOBBY_TIMEOUT → (elapse (initBaseLobby t) d).onClose = false) ∧
    (∀ st c, (base_on_join st c).closingAt = none) ∧
    (∀ st : BaseLobbyState, st.clients = [] →
      (check_empty st).closingAt = some st.now) ∧
    EMPTY_LOBBY_TIMEOUT = 300 := by
  refine ⟨rfl, ?_, ?_, fun st c => rfl, ?_, rfl⟩
  · intro d hd
    simp only [elapse, initBaseLobby, check_empty, List.isEmpty_nil, if_true,
      Bool.false_or, decide_eq_true_eq, EMPTY_LOBBY_TIMEOUT] at hd ⊢
    omega
  · intro d hd
    simp only [elapse, initBaseLobby, check_empty, List.isEmpty_nil, if_true,
      Bool.false_or, decide_eq_false_iff_not, EMPTY_LOBBY_TIMEOUT] at hd ⊢
    omega
  · intro st hst
    rw [check_empty, if_pos (by rw [hst]; rfl)]

theorem C10_empty_lobby_countdown_witness :
    EMPTY_LOBBY_TIMEOUT ≤ 300 ∧ (elapse (initBaseLobby 5) 300).onClose = true :=
  ⟨by decide, (C10_empty_lobby_countdown 5).2.1 300 (by decide)⟩

end DFM
